import Mathlib

/-!
Verification of the trust-establishment core of midgard-lib: claims normalization,
credential-bundle parsing, token verification, LDAP authentication and the
LDAPInfo configuration structure.  Go code is shallowly embedded: maps become
association lists, `interface\x7b\x7d` values become the `GoValue` inductive,
fallible Go functions return `Except` or `GoResult` (which also records
abnormal termination via panic), and network effects of the LDAP protocol are
supplied by an explicit oracle (`LDAPWorld`).
-/

namespace Midgard

/-- First-match association-list lookup, the reading discipline of a Go
`map[string]string` rendered as a list of pairs. -/
def mapFind (m : List (String × String)) (k : String) : Option String :=
  match m with
  | [] => Option.none
  | (k', v) :: rest => if k' = k then some v else mapFind rest k

/-- Go map assignment `m[k] = v`: replace the binding if the key is present,
otherwise append a new binding. -/
def mapInsert (m : List (String × String)) (k v : String) : List (String × String) :=
  match m with
  | [] => [(k, v)]
  | (k', v') :: rest => if k' = k then (k, v) :: rest else (k', v') :: mapInsert rest k v

/-- Left-biased choice on options, used to state override semantics. -/
def oElse (a b : Option String) : Option String :=
  match a with
  | some v => some v
  | Option.none => b

theorem mapFind_mapInsert (m : List (String × String)) (k v k' : String) :
    mapFind (mapInsert m k v) k' = if k = k' then some v else mapFind m k' := by
  induction m with
  | nil => simp [mapInsert, mapFind]
  | cons hd tl ih =>
    obtain ⟨k0, v0⟩ := hd
    by_cases h0 : k0 = k
    · subst h0
      by_cases h1 : k0 = k'
      · subst h1; simp [mapInsert, mapFind]
      · simp [mapInsert, mapFind, h1]
    · by_cases h1 : k0 = k'
      · subst h1
        have : ¬ k = k0 := fun h => h0 h.symm
        simp [mapInsert, mapFind, h0, this]
      · simp [mapInsert, mapFind, h0, h1, ih]

/-- Decides whether `p` is a prefix of `s` (character lists). -/
def isPfx : List Char → List Char → Bool
  | [], _ => true
  | _ :: _, [] => false
  | p :: ps, c :: cs => p = c && isPfx ps cs

/-- Fuel-driven worker for `goReplaceAll`.  The fuel strictly exceeds the
length of the subject so it never runs out (each step consumes at least one
character of the subject). -/
def replaceListAux (fuel : Nat) (pat rep : List Char) (s : List Char) : List Char :=
  match fuel, s with
  | 0, s => s
  | _ + 1, [] => []
  | fuel + 1, c :: cs =>
    if pat ≠ [] && isPfx pat (c :: cs) then
      rep ++ replaceListAux fuel pat rep ((c :: cs).drop pat.length)
    else
      c :: replaceListAux fuel pat rep cs

/-- Embedding of Go `strings.Replace(s, pat, rep, -1)`: replace every
non-overlapping occurrence of `pat` in `s`, scanning left to right. -/
def goReplaceAll (s pat rep : String) : String :=
  ⟨replaceListAux (s.data.length + 1) pat.data rep.data s.data⟩

example : goReplaceAll "uid={USERNAME}" "{USERNAME}" "lskywalker" = "uid=lskywalker" := by rfl

example : goReplaceAll "a b c" " " "_" = "a_b_c" := by rfl

/-- Lexicographic comparison of character lists by code point, the order Go
uses to sort strings (byte order and code-point order agree on UTF-8). -/
def lexLe : List Char → List Char → Bool
  | [], _ => true
  | _ :: _, [] => false
  | a :: as, b :: bs =>
    if a.toNat < b.toNat then true
    else if a.toNat = b.toNat then lexLe as bs
    else false

/-- Lexicographic order on strings, stated on their character lists. -/
def strLe (a b : String) : Prop := lexLe a.data b.data = true

instance : DecidableRel strLe :=
  fun a b => instDecidableEqBool (lexLe a.data b.data) true

theorem charToNat_inj {a b : Char} (h : a.toNat = b.toNat) : a = b :=
  Char.ofNat_toNat a ▸ Char.ofNat_toNat b ▸ congrArg Char.ofNat h

theorem lexLe_total (a b : List Char) : lexLe a b = true ∨ lexLe b a = true := by
  induction a generalizing b with
  | nil => left; simp [lexLe]
  | cons x xs ih =>
    cases b with
    | nil => right; simp [lexLe]
    | cons y ys =>
      rcases Nat.lt_trichotomy x.toNat y.toNat with h | h | h
      · left; simp [lexLe, h]
      · rcases ih ys with h' | h'
        · left; simp [lexLe, h, h']
        · right; simp [lexLe, h.symm, h']
      · right; simp [lexLe, h]

theorem lexLe_trans {a b c : List Char} (h1 : lexLe a b = true)
    (h2 : lexLe b c = true) : lexLe a c = true := by
  induction a generalizing b c with
  | nil => simp [lexLe]
  | cons x xs ih =>
    cases b with
    | nil => simp [lexLe] at h1
    | cons y ys =>
      cases c with
      | nil => simp [lexLe] at h2
      | cons z zs =>
        simp only [lexLe] at h1 h2 ⊢
        by_cases hxy : x.toNat < y.toNat
        · by_cases hyz : y.toNat < z.toNat
          · simp [Nat.lt_trans hxy hyz]
          · by_cases hyz2 : y.toNat = z.toNat
            · simp [hyz2 ▸ hxy]
            · simp [hyz, hyz2] at h2
        · by_cases hxy2 : x.toNat = y.toNat
          · rw [if_neg hxy, if_pos hxy2] at h1
            by_cases hyz : y.toNat < z.toNat
            · simp [hxy2 ▸ hyz]
            · by_cases hyz2 : y.toNat = z.toNat
              · rw [if_neg hyz, if_pos hyz2] at h2
                have hxz : x.toNat = z.toNat := hxy2.trans hyz2
                simp [hxz, Nat.lt_irrefl, ih h1 h2]
              · simp [hyz, hyz2] at h2
          · simp [hxy, hxy2] at h1

theorem lexLe_antisymm {a b : List Char} (h1 : lexLe a b = true)
    (h2 : lexLe b a = true) : a = b := by
  induction a generalizing b with
  | nil =>
    cases b with
    | nil => rfl
    | cons y ys => simp [lexLe] at h2
  | cons x xs ih =>
    cases b with
    | nil => simp [lexLe] at h1
    | cons y ys =>
      simp only [lexLe] at h1 h2
      rcases Nat.lt_trichotomy x.toNat y.toNat with hxy | hxy | hxy
      · simp [hxy] at h2; omega
      · have hx : x = y := charToNat_inj hxy
        subst hx
        simp at h1 h2
        exact congrArg (x :: ·) (ih h1 h2)
      · simp [hxy] at h1; omega

instance : IsTotal String strLe := ⟨fun a b => lexLe_total a.data b.data⟩

instance : IsTrans String strLe := ⟨fun _ _ _ => lexLe_trans⟩

instance : IsAntisymm String strLe :=
  ⟨fun a b h1 h2 => by
    cases a; cases b
    exact congrArg String.mk (lexLe_antisymm h1 h2)⟩

/-- Lexicographic sort on strings, the deterministic output order mandated for
normalized claims. -/
def sortStrings (l : List String) : List String :=
  l.insertionSort strLe

theorem sortStrings_perm_invariant {l1 l2 : List String} (h : l1.Perm l2) :
    sortStrings l1 = sortStrings l2 :=
  List.eq_of_perm_of_sorted
    (((List.perm_insertionSort strLe l1).trans h).trans
      (List.perm_insertionSort strLe l2).symm)
    (List.sorted_insertionSort strLe l1)
    (List.sorted_insertionSort strLe l2)

/-- Render an attribute map as `"@auth:key=value"` strings, sorted
lexicographically. -/
def normalizeMap (attrs : List (String × String)) : List String :=
  sortStrings (attrs.map (fun kv => "@auth:" ++ kv.1 ++ "=" ++ kv.2))

/-- Modelled from the spec: `NormalizeAuth` lives in the client utility file,
which is not among the sources (only its tests are).  Section 4.1 of the spec
gives its contract: for every key/value pair emit `"@auth:" ++ key ++ "=" ++
value`, sort the output lexicographically, and map nil input to an empty
sequence with no error path. -/
def NormalizeAuth (attributes : Option (List (String × String))) : List String :=
  match attributes with
  | Option.none => []
  | some attrs => normalizeMap attrs

example : NormalizeAuth (some [("d2", "v2"), ("d1", "v1")]) =
    ["@auth:d1=v1", "@auth:d2=v2"] := by decide

/-- Value of one character of the standard base64 alphabet, `Option.none` for a
character outside it. -/
def b64Val (c : Char) : Option Nat :=
  if 'A' ≤ c ∧ c ≤ 'Z' then some (c.toNat - 65)
  else if 'a' ≤ c ∧ c ≤ 'z' then some (c.toNat - 97 + 26)
  else if '0' ≤ c ∧ c ≤ '9' then some (c.toNat - 48 + 52)
  else if c = '+' then some 62
  else if c = '/' then some 63
  else Option.none

/-- Standard (padded) base64 decoding of a character list into bytes,
`Option.none` on any input that the Go standard decoder rejects:
a length that is not a multiple of four, a character outside the alphabet, or
misplaced padding. -/
def base64DecodeList : List Char → Option (List Nat)
  | [] => some []
  | a :: b :: c :: d :: rest =>
    match b64Val a, b64Val b with
    | some va, some vb =>
      if c = '=' then
        if d = '=' ∧ rest = [] then some [va * 4 + vb / 16] else Option.none
      else
        match b64Val c with
        | some vc =>
          if d = '=' then
            if rest = [] then some [va * 4 + vb / 16, vb % 16 * 16 + vc / 4]
            else Option.none
          else
            match b64Val d with
            | some vd =>
              (base64DecodeList rest).map
                (fun bs => (va * 4 + vb / 16) :: (vb % 16 * 16 + vc / 4) ::
                  (vc % 4 * 64 + vd) :: bs)
            | Option.none => Option.none
        | Option.none => Option.none
    | _, _ => Option.none
  | _ => Option.none

/-- Base64 decode of a string. -/
def base64Decode (s : String) : Option (List Nat) := base64DecodeList s.data

example : base64Decode "d29vcHM=" = some [119, 111, 111, 112, 115] := by decide

example : base64Decode "BAD" = Option.none := by decide

example : base64Decode "^^^NOTGOOD=" = Option.none := by decide

/-- The application-credential bundle after JSON deserialization: three
base64-encoded PEM blobs. -/
structure Credentials where
  certificate : String
  certificateAuthority : String
  certificateKey : String
deriving DecidableEq

/-- The three base64 fields of a credential bundle. -/
inductive CredField
  | certificate
  | certificateKey
  | certificateAuthority
deriving DecidableEq

/-- Errors of the credential-bundle parser; a `parseError` names the offending
field, as the spec requires. -/
inductive CredError
  | parseError (field : CredField)
deriving DecidableEq

/-- Projection of the named base64 field out of a bundle. -/
def credFieldValue (f : CredField) (c : Credentials) : String :=
  match f with
  | .certificate => c.certificate
  | .certificateKey => c.certificateKey
  | .certificateAuthority => c.certificateAuthority

/-- Modelled from the spec: `ParseCredentials` lives in the client utility
file, which is not among the sources (only its tests are).  Spec section 4.2:
base64-decode each field independently; a decode failure yields a ParseError
naming exactly which field failed.  The decode order (certificate, then key,
then certificate authority) follows the tests of the missing file.  The later
PEM/TLS assembly steps are outside claim scope and the model returns the three
decoded byte strings. -/
def ParseCredentials (c : Credentials) :
    Except CredError (List Nat × List Nat × List Nat) :=
  match base64Decode c.certificate with
  | Option.none => .error (.parseError .certificate)
  | some certB =>
    match base64Decode c.certificateKey with
    | Option.none => .error (.parseError .certificateKey)
    | some keyB =>
      match base64Decode c.certificateAuthority with
      | Option.none => .error (.parseError .certificateAuthority)
      | some caB => .ok (certB, keyB, caB)

/-- Temporal and standard claims carried by a token payload, together with the
free-form realm and data map. -/
structure TokenClaims where
  exp : Option Int
  nbf : Option Int
  iat : Option Int
  sub : String
  iss : String
  aud : String
  realm : String
  data : List (String × String)
deriving DecidableEq

/-- Signing-algorithm families a compact token can declare. -/
inductive SigAlg
  | algNone
  | hs256
  | es256
  | rs256
deriving DecidableEq

/-- Modelled from the spec: the pinned signer certificate, used only to verify
signatures.  It is abstracted to the identity of its public key (so that a
signature verifies exactly when it was produced by the matching private key)
and the asymmetric family of that key. -/
structure SignerCert where
  keyId : Nat
  family : SigAlg
deriving DecidableEq

/-- Modelled from the spec: the opaque compact three-part signed token.  A
syntactically valid token carries a declared algorithm, a claims payload and a
signature, abstracted as the identity of the private key that produced it;
any input without that three-part structure is `malformed`. -/
inductive Token
  | wellFormed (alg : SigAlg) (claims : TokenClaims) (sigKeyId : Nat)
  | malformed
deriving DecidableEq

/-- Failure modes of token handling, each distinct per spec section 4.3. -/
inductive TokenError
  | decodeError
  | signatureError
  | expiryError
deriving DecidableEq

/-- Signature acceptance: the declared algorithm must be the asymmetric family
of the certificate key (in particular not `none`), and the signature must have been
produced by the private key matching the pinned certificate. -/
def sigOK (alg : SigAlg) (sigKeyId : Nat) (cert : SignerCert) : Bool :=
  alg == cert.family && !(alg == SigAlg.algNone) && sigKeyId == cert.keyId

/-- Temporal validity at `now`: `exp`, when present, is strictly in the
future, and `nbf`, when present, is not in the future. -/
def claimsValid (c : TokenClaims) (now : Int) : Bool :=
  (match c.exp with
   | Option.none => true
   | some e => decide (now < e)) &&
  (match c.nbf with
   | Option.none => true
   | some n => decide (n ≤ now))

/-- Modelled from the spec: `VerifyToken` lives in the client utility file,
which is not among the sources (only its tests are).  Spec section 4.3: parse
the three parts, check the algorithm, cryptographically validate the signature
against the pinned certificate (SignatureError on mismatch, no claims
returned), then check the temporal claims (ExpiryError), and return the
structured claims. -/
def VerifyToken (t : Token) (cert : SignerCert) (now : Int) :
    Except TokenError TokenClaims :=
  match t with
  | .malformed => .error .decodeError
  | .wellFormed alg c k =>
    if sigOK alg k cert then
      if claimsValid c now then .ok c else .error .expiryError
    else .error .signatureError

/-- Normalized claim strings of a token payload: the subject plus every
data-map entry, flattened to sorted `"@auth:key=value"` form. -/
def normalizedTokenClaims (c : TokenClaims) : List String :=
  normalizeMap (("subject", c.sub) :: c.data)

/-- Modelled from the spec: `VerifyTokenSignature` lives in the client utility
file, which is not among the sources (only its tests are).  It verifies like
`VerifyToken` and additionally flattens subject and data entries through the
claims normalizer. -/
def VerifyTokenSignature (t : Token) (cert : SignerCert) (now : Int) :
    Except TokenError (List String) :=
  match VerifyToken t cert now with
  | .error e => .error e
  | .ok c => .ok (normalizedTokenClaims c)

/-- Modelled from the spec: `UnsecureClaimsFromToken` lives in the client
utility file, which is not among the sources (only its tests are).  It parses
the payload of a syntactically valid token without verifying the signature and
returns the normalized claims, failing only on structurally malformed input. -/
def UnsecureClaimsFromToken (t : Token) : Except TokenError (List String) :=
  match t with
  | .malformed => .error .decodeError
  | .wellFormed _ c _ => .ok (normalizedTokenClaims c)

/-- Dynamic values stored in a Go `map[string]` metadata map: strings, string
lists, string sets (a Go map used as a set), integers, or anything else. -/
inductive GoValue
  | str (s : String)
  | strList (l : List String)
  | strSet (l : List String)
  | int (n : Int)
deriving DecidableEq

/-- First-match lookup in a metadata map. -/
def lookupV (m : List (String × GoValue)) (k : String) : Option GoValue :=
  match m with
  | [] => Option.none
  | (k', v) :: rest => if k' = k then some v else lookupV rest k

/-- Outcome of running a Go function: a value, a returned error, or an
abnormal termination (panic). -/
inductive GoResult (α : Type)
  | ok (a : α)
  | err (msg : String)
  | panics (msg : String)
deriving DecidableEq

/-- Sequencing of Go results: errors and panics short-circuit. -/
def GoResult.bind {α β : Type} (r : GoResult α) (f : α → GoResult β) :
    GoResult β :=
  match r with
  | .ok a => f a
  | .err m => .err m
  | .panics m => .panics m

/-- One attribute returned on a directory entry: a name and a value list. -/
structure LDAPAttribute where
  name : String
  values : List String
deriving DecidableEq

/-- One attribute of a relative distinguished-name component. -/
structure RDNAttr where
  typ : String
  value : String
deriving DecidableEq

/-- A relative distinguished-name component as produced by `ldap.ParseDN`:
at least one attribute.  The code reads only `Attributes[0]`, kept here as
`attr0`; the remaining attributes are carried unread. -/
structure RDN where
  attr0 : RDNAttr
  attrRest : List RDNAttr
deriving DecidableEq

/-- A directory entry returned by the search: its distinguished name, the
result of `ldap.ParseDN` on that name (`Option.none` when the library parser
rejects it), and its attributes. -/
structure LDAPEntry where
  dn : String
  parsedDN : Option (List RDN)
  attributes : List LDAPAttribute
deriving DecidableEq

/-- Oracle for the directory server: outcomes of the dial, the service bind,
the search, and the user rebind performed against a found entry. -/
structure LDAPWorld where
  dialErr : Option String
  bindErr : Option String
  searchResult : Except String (List LDAPEntry)
  rebindErr : LDAPEntry → Option String

/-- Embedding of the metadata reads of `LDAPClaims.FromMetadata`: a presence
check followed by an unchecked Go type assertion `metadata[k].(string)`, which
panics when the value is present but not a string. -/
def getMetaString (metadata : List (String × GoValue)) (k : String) :
    GoResult String :=
  match lookupV metadata k with
  | Option.none => .err ("Metadata must contain the key \x27" ++ k ++ "\x27")
  | some (.str s) => .ok s
  | some _ => .panics "interface conversion: metadata value is not a string"

/-- The inner loop of `FromMetadata` over the entry attributes: skip
`userPassword` and `objectClass`, read `attr.Values[0]` — a panic when the
value list is empty — skip empty first values, and store the first value with
spaces replaced by underscores under the attribute name. -/
def attrLoop (m : List (String × String)) (attrs : List LDAPAttribute) :
    GoResult (List (String × String)) :=
  match attrs with
  | [] => .ok m
  | a :: rest =>
    if a.name = "userPassword" ∨ a.name = "objectClass" then attrLoop m rest
    else
      match a.values with
      | [] => .panics "runtime error: index out of range"
      | v :: _ =>
        if v = "" then attrLoop m rest
        else attrLoop (mapInsert m a.name (goReplaceAll v " " "_")) rest

/-- The RDN loop of `FromMetadata`: accumulate every `ou=` value, and fold the
`dc=` values into `organization`, appending with a `"."` separator only when
the accumulator is non-empty. -/
def rdnFold (rdns : List RDN) (st : List String × String) :
    List String × String :=
  rdns.foldl
    (fun st rdn =>
      let attr := rdn.attr0
      let subOrgs := if attr.typ = "ou" then st.1 ++ [attr.value] else st.1
      let organization :=
        if attr.typ = "dc" then
          if st.2 = "" then attr.value else st.2 ++ "." ++ attr.value
        else st.2
      (subOrgs, organization))
    st

/-- The attribute-map construction of `FromMetadata` after the user rebind:
store `organizationalUnit` (first `ou=` value, when any), `organization`
(the folded `dc=` values, when non-empty), `dn` (the distinguished name with
spaces replaced by underscores), then run the entry-attribute loop. -/
def extractAttributes (dn : String) (rdns : List RDN)
    (attrs : List LDAPAttribute) : GoResult (List (String × String)) :=
  let st := rdnFold rdns ([], "")
  let m1 : List (String × String) :=
    match st.1 with
    | [] => []
    | v :: _ => mapInsert [] "organizationalUnit" v
  let m2 := if st.2 = "" then m1 else mapInsert m1 "organization" st.2
  let m3 := mapInsert m2 "dn" (goReplaceAll dn " " "_")
  attrLoop m3 attrs

/-- The tail of `FromMetadata` once a unique entry is found: rebind as the
entry to verify the user password, parse the distinguished name of the entry, and
extract the attribute map. -/
def rebindAndExtract (w : LDAPWorld) (entry : LDAPEntry) :
    GoResult (List (String × String)) :=
  match w.rebindErr entry with
  | some e => .err e
  | Option.none =>
    match entry.parsedDN with
    | Option.none => .err "DN syntax is invalid"
    | some rdns => extractAttributes entry.dn rdns entry.attributes

/-- Embedding of `LDAPClaims.FromMetadata`: read the six required metadata
keys (in source order) with unchecked string assertions, dial, bind as the
service account, search, require exactly one entry, then rebind as that entry
and extract its attributes. -/
def FromMetadata (metadata : List (String × GoValue)) (w : LDAPWorld) :
    GoResult (List (String × String)) :=
  (getMetaString metadata "LDAPAddress").bind fun _ =>
  (getMetaString metadata "bindDN").bind fun _ =>
  (getMetaString metadata "bindPassword").bind fun _ =>
  (getMetaString metadata "username").bind fun _ =>
  (getMetaString metadata "password").bind fun _ =>
  (getMetaString metadata "baseDN").bind fun _ =>
  match w.dialErr with
  | some e => .err e
  | Option.none =>
    match w.bindErr with
    | some e => .err e
    | Option.none =>
      match w.searchResult with
      | .error e => .err e
      | .ok entries =>
        match entries with
        | [entry] => rebindAndExtract w entry
        | _ => .err "User does not exist or too many entries returned"

/-- Modelled from the spec and the tests of the package: the metadata key constant
`LDAPAddressKey`, defined in a ldaputils file not among the sources; its value
is fixed by the error message the tests expect. -/
def LDAPAddressKey : String := "address"

/-- Modelled from the spec and the tests of the package: the metadata key constant
`LDAPBindDNKey` of the missing ldaputils file. -/
def LDAPBindDNKey : String := "bindDN"

/-- Modelled from the spec and the tests of the package: the metadata key constant
`LDAPBindPasswordKey` of the missing ldaputils file. -/
def LDAPBindPasswordKey : String := "bindPassword"

/-- Modelled from the spec and the tests of the package: the metadata key constant
`LDAPBindSearchFilterKey` of the missing ldaputils file. -/
def LDAPBindSearchFilterKey : String := "bindSearchFilter"

/-- Modelled from the spec and the tests of the package: the metadata key constant
`LDAPSubjectKey` of the missing ldaputils file. -/
def LDAPSubjectKey : String := "subjectKey"

/-- Modelled from the spec and the tests of the package: the metadata key constant
`LDAPIgnoredKeys` of the missing ldaputils file. -/
def LDAPIgnoredKeys : String := "ignoredKeys"

/-- Modelled from the spec and the tests of the package: the metadata key constant
`LDAPConnSecurityProtocolKey` of the missing ldaputils file. -/
def LDAPConnSecurityProtocolKey : String := "connSecurityProtocol"

/-- Modelled from the spec and the tests of the package: the metadata key constant
`LDAPUsernameKey` of the missing ldaputils file. -/
def LDAPUsernameKey : String := "username"

/-- Modelled from the spec and the tests of the package: the metadata key constant
`LDAPPasswordKey` of the missing ldaputils file. -/
def LDAPPasswordKey : String := "password"

/-- Modelled from the spec and the tests of the package: the metadata key constant
`LDAPBaseDNKey` of the missing ldaputils file. -/
def LDAPBaseDNKey : String := "baseDN"

/-- Modelled from the spec and the tests of the package: `findLDAPKey`, defined in
a ldaputils file not among the sources.  It returns the string value stored
under the key, an error naming the key when it is absent, and an error naming
the key when the value is not a string; the message texts are those the tests
expect. -/
def findLDAPKey (k : String) (metadata : List (String × GoValue)) :
    Except String String :=
  match lookupV metadata k with
  | Option.none =>
    .error ("metadata must contain the key \x27" ++ k ++ "\x27")
  | some (.str s) => .ok s
  | some _ =>
    .error ("metadata must be a string for key \x27" ++ k ++ "\x27")

/-- Modelled from the spec and the tests of the package: `findLDAPKeyMap`, defined
in a ldaputils file not among the sources.  Per the spec, `ignoredKeys` must
be a string list, coerced to a set; the tests fix the error messages for an
absent key and for a value that is not a string list. -/
def findLDAPKeyMap (k : String) (metadata : List (String × GoValue)) :
    Except String (List String) :=
  match lookupV metadata k with
  | Option.none =>
    .error ("metadata must contain the key \x27" ++ k ++ "\x27")
  | some (.strList l) => .ok l
  | some _ =>
    .error ("metadata must be a list of strings for key \x27" ++ k ++ "\x27")

/-- The typed LDAP connection information, mirroring the `LDAPInfo` struct
field for field; the ignored-key set is carried as its list of keys. -/
structure LDAPInfo where
  address : String
  bindDN : String
  bindPassword : String
  bindSearchFilter : String
  subjectKey : String
  ignoreKeys : List String
  baseDN : String
  connSecurityProtocol : String
  username : String
  password : String
deriving DecidableEq

/-- Embedding of `NewLDAPInfo`: reject nil metadata, then read the ten fields
through `findLDAPKey`/`findLDAPKeyMap` in source order, failing on the first
missing or mistyped one. -/
def NewLDAPInfo (metadata : Option (List (String × GoValue))) :
    Except String LDAPInfo :=
  match metadata with
  | Option.none => .error "you must provide at least metadata or defaultMetadata"
  | some md =>
    (findLDAPKey LDAPAddressKey md).bind fun address =>
    (findLDAPKey LDAPBindDNKey md).bind fun bdn =>
    (findLDAPKey LDAPBindPasswordKey md).bind fun bpw =>
    (findLDAPKey LDAPBindSearchFilterKey md).bind fun bsf =>
    (findLDAPKey LDAPSubjectKey md).bind fun sk =>
    (findLDAPKeyMap LDAPIgnoredKeys md).bind fun ik =>
    (findLDAPKey LDAPConnSecurityProtocolKey md).bind fun csp =>
    (findLDAPKey LDAPUsernameKey md).bind fun user =>
    (findLDAPKey LDAPPasswordKey md).bind fun pw =>
    (findLDAPKey LDAPBaseDNKey md).bind fun bdn2 =>
    .ok ⟨address, bdn, bpw, bsf, sk, ik, bdn2, csp, user, pw⟩

/-- Embedding of `LDAPInfo.ToMap`: the ten metadata keys with the field values
of the structure; the ignored-key set keeps its set (Go map) representation. -/
def ToMap (i : LDAPInfo) : List (String × GoValue) :=
  [(LDAPAddressKey, .str i.address),
   (LDAPBindDNKey, .str i.bindDN),
   (LDAPBindPasswordKey, .str i.bindPassword),
   (LDAPBindSearchFilterKey, .str i.bindSearchFilter),
   (LDAPSubjectKey, .str i.subjectKey),
   (LDAPIgnoredKeys, .strSet i.ignoreKeys),
   (LDAPUsernameKey, .str i.username),
   (LDAPPasswordKey, .str i.password),
   (LDAPBaseDNKey, .str i.baseDN),
   (LDAPConnSecurityProtocolKey, .str i.connSecurityProtocol)]

/-- Embedding of `LDAPInfo.GetUserQueryString`: substitute every occurrence
of the placeholder in the bind search filter with the username. -/
def GetUserQueryString (i : LDAPInfo) : String :=
  goReplaceAll i.bindSearchFilter "{USERNAME}" i.username

/-- The `ou=` component values of a parsed distinguished name, in DN order
(reading the first attribute of each component, as the code does). -/
def ouValues (rdns : List RDN) : List String :=
  rdns.filterMap
    (fun r => if r.attr0.typ = "ou" then some r.attr0.value else Option.none)

/-- The `dc=` component values of a parsed distinguished name, in DN order. -/
def dcValues (rdns : List RDN) : List String :=
  rdns.filterMap
    (fun r => if r.attr0.typ = "dc" then some r.attr0.value else Option.none)

/-- The organization accumulator: fold the `dc=` values left to right,
appending with a `"."` separator only when the accumulator is non-empty. -/
def dcFoldFrom (acc : String) (vals : List String) : String :=
  vals.foldl (fun acc v => if acc = "" then v else acc ++ "." ++ v) acc

/-- The value an entry attribute contributes to the claim map: `Option.none`
when the attribute is skipped (`userPassword`, `objectClass`, an empty value
list, or an empty first value), otherwise the first value with spaces replaced
by underscores. -/
def storedVal (a : LDAPAttribute) : Option String :=
  if a.name = "userPassword" ∨ a.name = "objectClass" then Option.none
  else
    match a.values with
    | [] => Option.none
    | v :: _ => if v = "" then Option.none else some (goReplaceAll v " " "_")

/-- The contribution of the entry attributes to the final map under the name
`n`: the stored value of the last attribute named `n` that is not skipped. -/
def lastStored (n : String) (attrs : List LDAPAttribute) : Option String :=
  match attrs with
  | [] => Option.none
  | a :: rest =>
    match lastStored n rest with
    | some v => some v
    | Option.none => if a.name = n then storedVal a else Option.none

/-- The DN-derived part of the claim map, as a lookup function. -/
def dnBaseFind (dn : String) (rdns : List RDN) (n : String) : Option String :=
  if n = "dn" then some (goReplaceAll dn " " "_")
  else if n = "organization" then
    if dcFoldFrom "" (dcValues rdns) = "" then Option.none
    else some (dcFoldFrom "" (dcValues rdns))
  else if n = "organizationalUnit" then (ouValues rdns).head?
  else Option.none

/-- The attribute map exactly as claim C2 describes it: `organizationalUnit`
from the first `ou=` component when one exists, `organization` as the `.`-join
of every `dc=` component value when one exists, `dn` as the distinguished name
with spaces replaced by underscores, plus one entry per non-skipped entry
attribute. -/
def C2claimedMap (dn : String) (rdns : List RDN)
    (attrs : List LDAPAttribute) : List (String × String) :=
  (match ouValues rdns with
   | [] => []
   | v :: _ => [("organizationalUnit", v)])
  ++ (if dcValues rdns = [] then []
      else [("organization", String.intercalate "." (dcValues rdns))])
  ++ [("dn", goReplaceAll dn " " "_")]
  ++ attrs.filterMap
      (fun a =>
        if a.name = "userPassword" ∨ a.name = "objectClass" then Option.none
        else
          match a.values with
          | [] => Option.none
          | v :: _ =>
            if v = "" then Option.none
            else some (a.name, goReplaceAll v " " "_"))

theorem rdnFold_eq (rdns : List RDN) (s1 : List String) (s2 : String) :
    rdnFold rdns (s1, s2) =
      (s1 ++ ouValues rdns, dcFoldFrom s2 (dcValues rdns)) := by
  induction rdns generalizing s1 s2 with
  | nil => simp [rdnFold, ouValues, dcValues, dcFoldFrom]
  | cons r rest ih =>
    have hstep : rdnFold (r :: rest) (s1, s2) =
        rdnFold rest
          (if r.attr0.typ = "ou" then s1 ++ [r.attr0.value] else s1,
           if r.attr0.typ = "dc" then
             (if s2 = "" then r.attr0.value else s2 ++ "." ++ r.attr0.value)
           else s2) := rfl
    by_cases hou : r.attr0.typ = "ou"
    · have hdc : ¬ r.attr0.typ = "dc" := by rw [hou]; decide
      rw [hstep, if_pos hou, if_neg hdc, ih]
      simp [ouValues, dcValues, hou, hdc, dcFoldFrom]
    · by_cases hdc : r.attr0.typ = "dc"
      · rw [hstep, if_neg hou, if_pos hdc, ih]
        have hq1 : ouValues (r :: rest) = ouValues rest := by
          simp [ouValues, hou]
        have hq2 : dcValues (r :: rest) = r.attr0.value :: dcValues rest := by
          simp [dcValues, hdc]
        rw [hq1, hq2]
        rfl
      · rw [hstep, if_neg hou, if_neg hdc, ih]
        simp [ouValues, dcValues, hou, hdc]

theorem lastStored_cons (n : String) (a : LDAPAttribute)
    (rest : List LDAPAttribute) :
    lastStored n (a :: rest) =
      match lastStored n rest with
      | some v => some v
      | Option.none =>
        if a.name = n then storedVal a else Option.none := rfl

theorem lastStored_cons_skip {a : LDAPAttribute} (n : String)
    (rest : List LDAPAttribute) (h : storedVal a = Option.none) :
    lastStored n (a :: rest) = lastStored n rest := by
  rw [lastStored_cons, h]
  cases lastStored n rest with
  | none => simp
  | some v => rfl

theorem attrLoop_ok (attrs : List LDAPAttribute)
    (m0 : List (String × String)) (h : ∀ a ∈ attrs, a.values ≠ []) :
    ∃ m, attrLoop m0 attrs = .ok m ∧
      ∀ n, mapFind m n = oElse (lastStored n attrs) (mapFind m0 n) := by
  induction attrs generalizing m0 with
  | nil => exact ⟨m0, rfl, fun n => rfl⟩
  | cons a rest ih =>
    have ha : a.values ≠ [] := h a (List.mem_cons_self a rest)
    have hrest : ∀ b ∈ rest, b.values ≠ [] :=
      fun b hb => h b (List.mem_cons_of_mem a hb)
    by_cases hskip : a.name = "userPassword" ∨ a.name = "objectClass"
    · have hsv : storedVal a = Option.none := by simp [storedVal, hskip]
      obtain ⟨m, hm, hfind⟩ := ih m0 hrest
      refine ⟨m, ?_, ?_⟩
      · simpa [attrLoop, hskip] using hm
      · intro n
        rw [hfind n, lastStored_cons_skip n rest hsv]
    · cases hv : a.values with
      | nil => exact absurd hv ha
      | cons v vs =>
        by_cases hempty : v = ""
        · have hsv : storedVal a = Option.none := by
            simp [storedVal, hskip, hv, hempty]
          obtain ⟨m, hm, hfind⟩ := ih m0 hrest
          refine ⟨m, ?_, ?_⟩
          · simpa [attrLoop, hskip, hv, hempty] using hm
          · intro n
            rw [hfind n, lastStored_cons_skip n rest hsv]
        · have hsv : storedVal a = some (goReplaceAll v " " "_") := by
            simp [storedVal, hskip, hv, hempty]
          obtain ⟨m, hm, hfind⟩ :=
            ih (mapInsert m0 a.name (goReplaceAll v " " "_")) hrest
          refine ⟨m, ?_, ?_⟩
          · simpa [attrLoop, hskip, hv, hempty] using hm
          · intro n
            rw [hfind n, lastStored_cons]
            cases hl : lastStored n rest with
            | some w => simp [oElse]
            | none =>
              simp only [oElse, mapFind_mapInsert, hsv]
              by_cases hn : a.name = n
              · simp [hn]
              · simp [hn]

theorem mapFind_dnBase (dn : String) (rdns : List RDN) (n : String) :
    mapFind
      (mapInsert
        (if dcFoldFrom "" (dcValues rdns) = "" then
          (match ouValues rdns with
           | [] => ([] : List (String × String))
           | v :: _ => mapInsert [] "organizationalUnit" v)
         else
          mapInsert
            (match ouValues rdns with
             | [] => ([] : List (String × String))
             | v :: _ => mapInsert [] "organizationalUnit" v)
            "organization" (dcFoldFrom "" (dcValues rdns)))
        "dn" (goReplaceAll dn " " "_")) n = dnBaseFind dn rdns n := by
  cases hou : ouValues rdns <;>
    by_cases horg : dcFoldFrom "" (dcValues rdns) = "" <;>
    by_cases h1 : "dn" = n <;>
    by_cases h2 : "organization" = n <;>
    by_cases h3 : "organizationalUnit" = n <;>
    first
      | (subst h1; simp_all [mapFind, mapInsert, dnBaseFind])
      | (subst h2; simp_all [mapFind, mapInsert, dnBaseFind])
      | (subst h3; simp_all [mapFind, mapInsert, dnBaseFind])
      | simp_all [mapFind, mapInsert, dnBaseFind, Ne.symm h1, Ne.symm h2,
          Ne.symm h3]

theorem extractAttributes_ok (dn : String) (rdns : List RDN)
    (attrs : List LDAPAttribute) (h : ∀ a ∈ attrs, a.values ≠ []) :
    ∃ m, extractAttributes dn rdns attrs = .ok m ∧
      ∀ n, mapFind m n =
        oElse (lastStored n attrs) (dnBaseFind dn rdns n) := by
  have hfold := rdnFold_eq rdns [] ""
  unfold extractAttributes
  rw [hfold]
  simp only [List.nil_append]
  obtain ⟨m, hm, hfind⟩ :=
    attrLoop_ok attrs
      (mapInsert
        (if dcFoldFrom "" (dcValues rdns) = "" then
          (match ouValues rdns with
           | [] => ([] : List (String × String))
           | v :: _ => mapInsert [] "organizationalUnit" v)
         else
          mapInsert
            (match ouValues rdns with
             | [] => ([] : List (String × String))
             | v :: _ => mapInsert [] "organizationalUnit" v)
            "organization" (dcFoldFrom "" (dcValues rdns)))
        "dn" (goReplaceAll dn " " "_")) h
  refine ⟨m, hm, ?_⟩
  intro n
  rw [hfind n, mapFind_dnBase]

theorem fromMetadata_reduce (metadata : List (String × GoValue))
    (w : LDAPWorld) (a b c d e f : String)
    (h1 : lookupV metadata "LDAPAddress" = some (.str a))
    (h2 : lookupV metadata "bindDN" = some (.str b))
    (h3 : lookupV metadata "bindPassword" = some (.str c))
    (h4 : lookupV metadata "username" = some (.str d))
    (h5 : lookupV metadata "password" = some (.str e))
    (h6 : lookupV metadata "baseDN" = some (.str f))
    (hd : w.dialErr = Option.none) (hb : w.bindErr = Option.none)
    (entries : List LDAPEntry) (hs : w.searchResult = .ok entries) :
    FromMetadata metadata w =
      match entries with
      | [entry] => rebindAndExtract w entry
      | _ => .err "User does not exist or too many entries returned" := by
  unfold FromMetadata
  simp only [getMetaString, h1, h2, h3, h4, h5, h6, GoResult.bind, hd, hb, hs]
  cases entries with
  | nil => rfl
  | cons e rest =>
    cases rest with
    | nil => rfl
    | cons e2 rest2 => rfl

/-- C1: VerifyToken and VerifyTokenSignature succeed for every token signed
with the private key matching the pinned signer certificate, and for a token
signed with any other key they fail with a SignatureError and return no
claims, even when all other claims in the token are valid. -/
theorem C1_token_signature (alg : SigAlg) (c : TokenClaims)
    (cert : SignerCert) (k : Nat) (now : Int)
    (halg : alg = cert.family) (hnone : alg ≠ SigAlg.algNone)
    (hvalid : claimsValid c now = true) (hk : k ≠ cert.keyId) :
    (VerifyToken (.wellFormed alg c cert.keyId) cert now = .ok c ∧
     VerifyTokenSignature (.wellFormed alg c cert.keyId) cert now =
       .ok (normalizedTokenClaims c)) ∧
    (VerifyToken (.wellFormed alg c k) cert now = .error .signatureError ∧
     VerifyTokenSignature (.wellFormed alg c k) cert now =
       .error .signatureError) := by
  have hsig : sigOK alg cert.keyId cert = true := by
    simp [sigOK, halg, hnone, halg ▸ hnone]
  have hsig2 : sigOK alg k cert = false := by
    simp [sigOK, hk]
  refine ⟨⟨?_, ?_⟩, ?_, ?_⟩
  · simp [VerifyToken, hsig, hvalid]
  · simp [VerifyTokenSignature, VerifyToken, hsig, hvalid]
  · simp [VerifyToken, hsig2]
  · simp [VerifyTokenSignature, VerifyToken, hsig2]

/-- Witness for C1 at a concrete certificate, matching and mismatching key,
and temporally valid claims. -/
theorem C1_token_signature_witness :
    (VerifyToken
        (.wellFormed .es256
          ⟨Option.none, Option.none, Option.none, "sub", "", "", "", []⟩ 0)
        ⟨0, .es256⟩ 0 =
      .ok ⟨Option.none, Option.none, Option.none, "sub", "", "", "", []⟩ ∧
     VerifyTokenSignature
        (.wellFormed .es256
          ⟨Option.none, Option.none, Option.none, "sub", "", "", "", []⟩ 0)
        ⟨0, .es256⟩ 0 =
      .ok (normalizedTokenClaims
        ⟨Option.none, Option.none, Option.none, "sub", "", "", "", []⟩)) ∧
    (VerifyToken
        (.wellFormed .es256
          ⟨Option.none, Option.none, Option.none, "sub", "", "", "", []⟩ 1)
        ⟨0, .es256⟩ 0 = .error .signatureError ∧
     VerifyTokenSignature
        (.wellFormed .es256
          ⟨Option.none, Option.none, Option.none, "sub", "", "", "", []⟩ 1)
        ⟨0, .es256⟩ 0 = .error .signatureError) :=
  C1_token_signature .es256
    ⟨Option.none, Option.none, Option.none, "sub", "", "", "", []⟩
    ⟨0, .es256⟩ 1 0 rfl (by decide) (by decide) (by decide)

/-- C4: NormalizeAuth is deterministic and order-independent: any permutation
of the same key/value pairs yields the identical lexicographically sorted
sequence of `"@auth:key=value"` strings, nil or empty input yields an empty
sequence, and there is no error path (the function is total by
construction). -/
theorem C4_normalize_auth_deterministic (l1 l2 : List (String × String))
    (h : l1.Perm l2) :
    NormalizeAuth (some l1) = NormalizeAuth (some l2) ∧
    NormalizeAuth Option.none = [] ∧
    NormalizeAuth (some []) = [] := by
  refine ⟨?_, rfl, rfl⟩
  simp only [NormalizeAuth, normalizeMap]
  exact sortStrings_perm_invariant (h.map _)

/-- Witness for C4 at a concrete permutation of two pairs. -/
theorem C4_normalize_auth_witness :
    NormalizeAuth (some [("d2", "v2"), ("d1", "v1")]) =
      NormalizeAuth (some [("d1", "v1"), ("d2", "v2")]) ∧
    NormalizeAuth Option.none = [] ∧
    NormalizeAuth (some []) = [] :=
  C4_normalize_auth_deterministic [("d2", "v2"), ("d1", "v1")]
    [("d1", "v1"), ("d2", "v2")] (by decide)

/-- C5: for every credential bundle in which exactly one of the three base64
fields fails to decode, ParseCredentials returns a ParseError naming exactly
which field failed. -/
theorem C5_parse_credentials_field_error (c : Credentials) (f : CredField)
    (hf : base64Decode (credFieldValue f c) = Option.none)
    (hothers : ∀ g : CredField, g ≠ f →
      (base64Decode (credFieldValue g c)).isSome = true) :
    ParseCredentials c = .error (.parseError f) := by
  cases f with
  | certificate =>
    simp only [credFieldValue] at hf
    simp [ParseCredentials, hf]
  | certificateKey =>
    simp only [credFieldValue] at hf
    obtain ⟨bc, hbc⟩ := Option.isSome_iff_exists.mp
      (hothers .certificate (by decide))
    simp only [credFieldValue] at hbc
    simp [ParseCredentials, hbc, hf]
  | certificateAuthority =>
    simp only [credFieldValue] at hf
    obtain ⟨bc, hbc⟩ := Option.isSome_iff_exists.mp
      (hothers .certificate (by decide))
    obtain ⟨bk, hbk⟩ := Option.isSome_iff_exists.mp
      (hothers .certificateKey (by decide))
    simp only [credFieldValue] at hbc hbk
    simp [ParseCredentials, hbc, hbk, hf]

/-- Witness for C5 at a bundle whose certificate field alone is invalid
base64. -/
theorem C5_parse_credentials_witness :
    ParseCredentials ⟨"!", "", ""⟩ = .error (.parseError .certificate) :=
  C5_parse_credentials_field_error ⟨"!", "", ""⟩ .certificate rfl
    (fun g hg => by
      cases g with
      | certificate => exact absurd rfl hg
      | certificateKey => rfl
      | certificateAuthority => rfl)

/-- C8: GetUserQueryString returns the bind search filter with every
occurrence of the placeholder replaced by the username; in particular the
filter `uid=\x7bUSERNAME\x7d` with username lskywalker yields
`uid=lskywalker`, and a filter with two occurrences substitutes both. -/
theorem C8_get_user_query_string :
    (∀ i : LDAPInfo, GetUserQueryString i =
      goReplaceAll i.bindSearchFilter "{USERNAME}" i.username) ∧
    GetUserQueryString ⟨"123:123", "cn=admin,dc=toto,dc=com", "toto",
      "uid={USERNAME}", "uid", ["comment"], "ou=zoupla,dc=toto,dc=com",
      "TLS", "lskywalker", "secret"⟩ = "uid=lskywalker" ∧
    GetUserQueryString ⟨"123:123", "cn=admin,dc=toto,dc=com", "toto",
      "uid={USERNAME},khg={USERNAME}", "uid", ["comment"],
      "ou=zoupla,dc=toto,dc=com", "TLS", "lskywalker", "secret"⟩ =
      "uid=lskywalker,khg=lskywalker" :=
  ⟨fun _ => rfl, by decide, by decide⟩

/-- C9: UnsecureClaimsFromToken returns the normalized claims for every
syntactically valid three-part token without verifying its signature — the
signing key is unconstrained, so in particular for tokens whose signature is
invalid — and fails only on structurally malformed input. -/
theorem C9_unsecure_claims (alg : SigAlg) (c : TokenClaims) (sigKeyId : Nat) :
    UnsecureClaimsFromToken (.wellFormed alg c sigKeyId) =
      .ok (normalizedTokenClaims c) ∧
    UnsecureClaimsFromToken .malformed = .error .decodeError :=
  ⟨rfl, rfl⟩

/-- A metadata map carrying the six keys FromMetadata requires, all with
string values. -/
def okMeta : List (String × GoValue) :=
  [("LDAPAddress", .str "127.0.0.1:389"), ("bindDN", .str "cn=admin"),
   ("bindPassword", .str "pw"), ("username", .str "u"),
   ("password", .str "p"), ("baseDN", .str "dc=a")]

/-- A directory world whose search returns no entries. -/
def emptySearchWorld : LDAPWorld :=
  ⟨Option.none, Option.none, .ok [], fun _ => Option.none⟩

/-- C6: for every LDAP authentication in which the directory search returns
zero entries or more than one entry, the call fails with the
ambiguous-result error (the AmbiguousResultError of the spec, surfaced by the code
as the error message below), and only a search returning exactly one entry
proceeds to the user rebind step. -/
theorem C6_ambiguous_result (metadata : List (String × GoValue))
    (w : LDAPWorld) (a b c d e f : String) (entries : List LDAPEntry)
    (h1 : lookupV metadata "LDAPAddress" = some (.str a))
    (h2 : lookupV metadata "bindDN" = some (.str b))
    (h3 : lookupV metadata "bindPassword" = some (.str c))
    (h4 : lookupV metadata "username" = some (.str d))
    (h5 : lookupV metadata "password" = some (.str e))
    (h6 : lookupV metadata "baseDN" = some (.str f))
    (hd : w.dialErr = Option.none) (hb : w.bindErr = Option.none)
    (hs : w.searchResult = .ok entries) :
    (entries.length ≠ 1 →
      FromMetadata metadata w =
        .err "User does not exist or too many entries returned") ∧
    (∀ entry, entries = [entry] →
      FromMetadata metadata w = rebindAndExtract w entry) := by
  have hred :=
    fromMetadata_reduce metadata w a b c d e f h1 h2 h3 h4 h5 h6 hd hb
      entries hs
  constructor
  · intro hlen
    rw [hred]
    cases entries with
    | nil => rfl
    | cons e1 rest =>
      cases rest with
      | nil => exact absurd rfl hlen
      | cons e2 rest2 => rfl
  · intro entry hent
    subst hent
    rw [hred]

/-- Witness for C6: with a concrete well-formed metadata map and a world
whose search returns zero entries, the ambiguous-result error is returned. -/
theorem C6_ambiguous_result_witness :
    FromMetadata okMeta emptySearchWorld =
      .err "User does not exist or too many entries returned" :=
  (C6_ambiguous_result okMeta emptySearchWorld "127.0.0.1:389" "cn=admin"
    "pw" "u" "p" "dc=a" [] rfl rfl rfl rfl rfl rfl rfl rfl rfl).1
    (by decide)

/-- A metadata map whose required key LDAPAddress holds a non-string value. -/
def badTypeMeta : List (String × GoValue) :=
  [("LDAPAddress", .int 123), ("bindDN", .str "cn=admin"),
   ("bindPassword", .str "pw"), ("username", .str "u"),
   ("password", .str "p"), ("baseDN", .str "dc=a")]

/-- A directory entry carrying an attribute with an empty value list. -/
def emptyValuesEntry : LDAPEntry :=
  ⟨"uid=x", some [⟨⟨"uid", "x"⟩, []⟩], [⟨"mail", []⟩]⟩

/-- A directory world whose search returns exactly the entry with an
empty-valued attribute and whose binds succeed. -/
def emptyValuesWorld : LDAPWorld :=
  ⟨Option.none, Option.none, .ok [emptyValuesEntry], fun _ => Option.none⟩

/-- C3: the claim states that malformed external input always yields an error
value and never a panic; the code of FromMetadata instead panics on a
metadata map whose required key holds a non-string value (unchecked Go type
assertion) and on a directory entry attribute with an empty value list
(unchecked index `Values[0]`).  This theorem evaluates the code at both
failing inputs. -/
theorem C3_malformed_input_panics :
    FromMetadata badTypeMeta emptySearchWorld =
      .panics "interface conversion: metadata value is not a string" ∧
    FromMetadata okMeta emptyValuesWorld =
      .panics "runtime error: index out of range" :=
  ⟨rfl, rfl⟩

/-- The parsed RDN components of the counterexample entry for C2: a `uid=`
component followed by two `dc=` components. -/
def cexRDNs : List RDN :=
  [⟨⟨"uid", "x"⟩, []⟩, ⟨⟨"dc", "a"⟩, []⟩, ⟨⟨"dc", "b"⟩, []⟩]

/-- The attributes of the counterexample entry for C2: a directory attribute
that happens to be named `organization`. -/
def cexAttrs : List LDAPAttribute := [⟨"organization", ["megacorp"]⟩]

/-- The counterexample entry for C2. -/
def cexEntry : LDAPEntry := ⟨"uid=x,dc=a,dc=b", some cexRDNs, cexAttrs⟩

/-- A directory world returning exactly the counterexample entry. -/
def cexWorld : LDAPWorld :=
  ⟨Option.none, Option.none, .ok [cexEntry], fun _ => Option.none⟩

/-- C2 counterexample: on an entry whose DN yields `organization = "a.b"`
but which also carries a directory attribute named `organization`, the code
stores the attribute value (the attribute loop overwrites the DN-derived
entry), while the map described by the claim holds the `dc=`-join `"a.b"`. -/
theorem C2_attribute_map_counterexample :
    (∃ m, FromMetadata okMeta cexWorld = .ok m ∧
      mapFind m "organization" = some "megacorp") ∧
    mapFind (C2claimedMap "uid=x,dc=a,dc=b" cexRDNs cexAttrs)
      "organization" = some "a.b" ∧
    ("megacorp" : String) ≠ "a.b" :=
  ⟨⟨[("organization", "megacorp"), ("dn", "uid=x,dc=a,dc=b")], rfl, rfl⟩,
    rfl, by decide⟩

/-- C2 (amended): on successful LDAP authentication the attribute map returned
by FromMetadata is characterized per key as follows: the entry attributes
other than userPassword and objectClass whose value list is non-empty and
whose first value is non-empty each store their first value (spaces replaced
by underscores) under their name, the last one winning, and these stores
override the DN-derived entries; any name not stored that way falls back to
the DN-derived values — `dn` is the distinguished name with spaces replaced by
underscores, `organization` is the `dc=` values folded left to right with a
`.` separator appended only when the accumulator is non-empty (present only
when the fold is non-empty; this equals the plain `.`-join whenever no `dc=`
value is empty), and `organizationalUnit` is the first `ou=` value when one
exists. -/
theorem C2_attribute_map_amended (metadata : List (String × GoValue))
    (w : LDAPWorld) (a b c d e f : String) (entry : LDAPEntry)
    (rdns : List RDN)
    (h1 : lookupV metadata "LDAPAddress" = some (.str a))
    (h2 : lookupV metadata "bindDN" = some (.str b))
    (h3 : lookupV metadata "bindPassword" = some (.str c))
    (h4 : lookupV metadata "username" = some (.str d))
    (h5 : lookupV metadata "password" = some (.str e))
    (h6 : lookupV metadata "baseDN" = some (.str f))
    (hd : w.dialErr = Option.none) (hb : w.bindErr = Option.none)
    (hs : w.searchResult = .ok [entry])
    (hr : w.rebindErr entry = Option.none)
    (hpdn : entry.parsedDN = some rdns)
    (hattrs : ∀ ax ∈ entry.attributes, ax.values ≠ []) :
    ∃ m, FromMetadata metadata w = .ok m ∧
      ∀ n, mapFind m n =
        oElse (lastStored n entry.attributes)
          (dnBaseFind entry.dn rdns n) := by
  have hred :=
    fromMetadata_reduce metadata w a b c d e f h1 h2 h3 h4 h5 h6 hd hb
      [entry] hs
  rw [hred]
  simp only [rebindAndExtract, hr, hpdn]
  exact extractAttributes_ok entry.dn rdns entry.attributes hattrs

/-- Witness for C2 (amended) at the concrete counterexample world. -/
theorem C2_attribute_map_amended_witness :
    ∃ m, FromMetadata okMeta cexWorld = .ok m ∧
      ∀ n, mapFind m n =
        oElse (lastStored n cexEntry.attributes)
          (dnBaseFind cexEntry.dn cexRDNs n) :=
  C2_attribute_map_amended okMeta cexWorld "127.0.0.1:389" "cn=admin" "pw"
    "u" "p" "dc=a" cexEntry cexRDNs rfl rfl rfl rfl rfl rfl rfl rfl rfl rfl
    rfl (by decide)

/-- The nine required LDAPInfo metadata keys whose values must be strings. -/
def nineStringKeys : List String :=
  [LDAPAddressKey, LDAPBindDNKey, LDAPBindPasswordKey,
   LDAPBindSearchFilterKey, LDAPSubjectKey, LDAPConnSecurityProtocolKey,
   LDAPUsernameKey, LDAPPasswordKey, LDAPBaseDNKey]

/-- The ten required metadata keys in the order NewLDAPInfo checks them. -/
def ldapCheckOrder : List String :=
  [LDAPAddressKey, LDAPBindDNKey, LDAPBindPasswordKey,
   LDAPBindSearchFilterKey, LDAPSubjectKey, LDAPIgnoredKeys,
   LDAPConnSecurityProtocolKey, LDAPUsernameKey, LDAPPasswordKey,
   LDAPBaseDNKey]

/-- The first metadata key, in check order, absent from the map. -/
def firstMissingKey (md : List (String × GoValue)) : Option String :=
  ldapCheckOrder.find? (fun k => (lookupV md k).isNone)

/-- C7: for every metadata map from which a required LDAPConnectionInfo field
is omitted (and whose present required fields are well typed), NewLDAPInfo
returns no info and a validation error naming exactly that field — the first
missing field in check order when several are missing; all ten fields are
mandatory, as the statement quantifies over every key the check order can
yield. -/
theorem C7_new_ldap_info_missing_field (md : List (String × GoValue))
    (k : String)
    (hstr : ∀ k' ∈ nineStringKeys, ∀ v, lookupV md k' = some v →
      ∃ s, v = GoValue.str s)
    (hlist : ∀ v, lookupV md LDAPIgnoredKeys = some v →
      ∃ l, v = GoValue.strList l)
    (hmiss : firstMissingKey md = some k) :
    NewLDAPInfo (some md) =
      .error ("metadata must contain the key \x27" ++ k ++ "\x27") := by
  rcases hA : lookupV md LDAPAddressKey with _ | vA
  · have hk : LDAPAddressKey = k := by
      simpa [firstMissingKey, ldapCheckOrder, List.find?, hA] using hmiss
    subst hk
    simp [NewLDAPInfo, findLDAPKey, hA, Except.bind]
  obtain ⟨sA, rfl⟩ := hstr LDAPAddressKey (by decide) vA hA
  rcases hB : lookupV md LDAPBindDNKey with _ | vB
  · have hk : LDAPBindDNKey = k := by
      simpa [firstMissingKey, ldapCheckOrder, List.find?, hA, hB] using hmiss
    subst hk
    simp [NewLDAPInfo, findLDAPKey, hA, hB, Except.bind]
  obtain ⟨sB, rfl⟩ := hstr LDAPBindDNKey (by decide) vB hB
  rcases hC : lookupV md LDAPBindPasswordKey with _ | vC
  · have hk : LDAPBindPasswordKey = k := by
      simpa [firstMissingKey, ldapCheckOrder, List.find?, hA, hB, hC]
        using hmiss
    subst hk
    simp [NewLDAPInfo, findLDAPKey, hA, hB, hC, Except.bind]
  obtain ⟨sC, rfl⟩ := hstr LDAPBindPasswordKey (by decide) vC hC
  rcases hD : lookupV md LDAPBindSearchFilterKey with _ | vD
  · have hk : LDAPBindSearchFilterKey = k := by
      simpa [firstMissingKey, ldapCheckOrder, List.find?, hA, hB, hC, hD]
        using hmiss
    subst hk
    simp [NewLDAPInfo, findLDAPKey, hA, hB, hC, hD, Except.bind]
  obtain ⟨sD, rfl⟩ := hstr LDAPBindSearchFilterKey (by decide) vD hD
  rcases hE : lookupV md LDAPSubjectKey with _ | vE
  · have hk : LDAPSubjectKey = k := by
      simpa [firstMissingKey, ldapCheckOrder, List.find?, hA, hB, hC, hD, hE]
        using hmiss
    subst hk
    simp [NewLDAPInfo, findLDAPKey, hA, hB, hC, hD, hE, Except.bind]
  obtain ⟨sE, rfl⟩ := hstr LDAPSubjectKey (by decide) vE hE
  rcases hF : lookupV md LDAPIgnoredKeys with _ | vF
  · have hk : LDAPIgnoredKeys = k := by
      simpa [firstMissingKey, ldapCheckOrder, List.find?, hA, hB, hC, hD, hE,
        hF] using hmiss
    subst hk
    simp [NewLDAPInfo, findLDAPKey, findLDAPKeyMap, hA, hB, hC, hD, hE, hF,
      Except.bind]
  obtain ⟨lF, rfl⟩ := hlist vF hF
  rcases hG : lookupV md LDAPConnSecurityProtocolKey with _ | vG
  · have hk : LDAPConnSecurityProtocolKey = k := by
      simpa [firstMissingKey, ldapCheckOrder, List.find?, hA, hB, hC, hD, hE,
        hF, hG] using hmiss
    subst hk
    simp [NewLDAPInfo, findLDAPKey, findLDAPKeyMap, hA, hB, hC, hD, hE, hF,
      hG, Except.bind]
  obtain ⟨sG, rfl⟩ := hstr LDAPConnSecurityProtocolKey (by decide) vG hG
  rcases hH : lookupV md LDAPUsernameKey with _ | vH
  · have hk : LDAPUsernameKey = k := by
      simpa [firstMissingKey, ldapCheckOrder, List.find?, hA, hB, hC, hD, hE,
        hF, hG, hH] using hmiss
    subst hk
    simp [NewLDAPInfo, findLDAPKey, findLDAPKeyMap, hA, hB, hC, hD, hE, hF,
      hG, hH, Except.bind]
  obtain ⟨sH, rfl⟩ := hstr LDAPUsernameKey (by decide) vH hH
  rcases hI : lookupV md LDAPPasswordKey with _ | vI
  · have hk : LDAPPasswordKey = k := by
      simpa [firstMissingKey, ldapCheckOrder, List.find?, hA, hB, hC, hD, hE,
        hF, hG, hH, hI] using hmiss
    subst hk
    simp [NewLDAPInfo, findLDAPKey, findLDAPKeyMap, hA, hB, hC, hD, hE, hF,
      hG, hH, hI, Except.bind]
  obtain ⟨sI, rfl⟩ := hstr LDAPPasswordKey (by decide) vI hI
  rcases hJ : lookupV md LDAPBaseDNKey with _ | vJ
  · have hk : LDAPBaseDNKey = k := by
      simpa [firstMissingKey, ldapCheckOrder, List.find?, hA, hB, hC, hD, hE,
        hF, hG, hH, hI, hJ] using hmiss
    subst hk
    simp [NewLDAPInfo, findLDAPKey, findLDAPKeyMap, hA, hB, hC, hD, hE, hF,
      hG, hH, hI, hJ, Except.bind]
  obtain ⟨sJ, rfl⟩ := hstr LDAPBaseDNKey (by decide) vJ hJ
  simp [firstMissingKey, ldapCheckOrder, List.find?, hA, hB, hC, hD, hE, hF,
    hG, hH, hI, hJ] at hmiss

/-- A valid metadata map from the tests of the package, with the address key
omitted. -/
def missingAddressMeta : List (String × GoValue) :=
  [(LDAPBindDNKey, .str "cn=admin,dc=toto,dc=com"),
   (LDAPBindPasswordKey, .str "toto"),
   (LDAPBindSearchFilterKey, .str "uid={USERNAME}"),
   (LDAPSubjectKey, .str "uid"),
   (LDAPIgnoredKeys, .strList ["comment"]),
   (LDAPConnSecurityProtocolKey, .str "TLS"),
   (LDAPUsernameKey, .str "lskywalker"),
   (LDAPPasswordKey, .str "secret"),
   (LDAPBaseDNKey, .str "ou=zoupla,dc=toto,dc=com")]

/-- Witness for C7 at the concrete map missing only the address key. -/
theorem C7_new_ldap_info_missing_field_witness :
    NewLDAPInfo (some missingAddressMeta) =
      .error ("metadata must contain the key \x27" ++ LDAPAddressKey ++
        "\x27") :=
  C7_new_ldap_info_missing_field missingAddressMeta LDAPAddressKey
    (by
      intro k' hk' v hv
      simp only [nineStringKeys, List.mem_cons, List.not_mem_nil,
        or_false] at hk'
      rcases hk' with rfl | rfl | rfl | rfl | rfl | rfl | rfl | rfl | rfl
      · rw [show lookupV missingAddressMeta LDAPAddressKey = Option.none
          from rfl] at hv
        exact Option.noConfusion hv
      · rw [show lookupV missingAddressMeta LDAPBindDNKey =
            some (GoValue.str "cn=admin,dc=toto,dc=com") from rfl] at hv
        exact ⟨_, (Option.some.inj hv).symm⟩
      · rw [show lookupV missingAddressMeta LDAPBindPasswordKey =
            some (GoValue.str "toto") from rfl] at hv
        exact ⟨_, (Option.some.inj hv).symm⟩
      · rw [show lookupV missingAddressMeta LDAPBindSearchFilterKey =
            some (GoValue.str "uid={USERNAME}") from rfl] at hv
        exact ⟨_, (Option.some.inj hv).symm⟩
      · rw [show lookupV missingAddressMeta LDAPSubjectKey =
            some (GoValue.str "uid") from rfl] at hv
        exact ⟨_, (Option.some.inj hv).symm⟩
      · rw [show lookupV missingAddressMeta LDAPConnSecurityProtocolKey =
            some (GoValue.str "TLS") from rfl] at hv
        exact ⟨_, (Option.some.inj hv).symm⟩
      · rw [show lookupV missingAddressMeta LDAPUsernameKey =
            some (GoValue.str "lskywalker") from rfl] at hv
        exact ⟨_, (Option.some.inj hv).symm⟩
      · rw [show lookupV missingAddressMeta LDAPPasswordKey =
            some (GoValue.str "secret") from rfl] at hv
        exact ⟨_, (Option.some.inj hv).symm⟩
      · rw [show lookupV missingAddressMeta LDAPBaseDNKey =
            some (GoValue.str "ou=zoupla,dc=toto,dc=com") from rfl] at hv
        exact ⟨_, (Option.some.inj hv).symm⟩)
    (by
      intro v hv
      rw [show lookupV missingAddressMeta LDAPIgnoredKeys =
          some (GoValue.strList ["comment"]) from rfl] at hv
      exact ⟨_, (Option.some.inj hv).symm⟩)
    rfl

/-- Replace the ignored-keys entry of a metadata map by the given string
list. -/
def setIgnoredList (md : List (String × GoValue)) (l : List String) :
    List (String × GoValue) :=
  md.map (fun kv =>
    if kv.1 = LDAPIgnoredKeys then (kv.1, GoValue.strList l) else kv)

/-- The LDAPInfo built from the valid metadata used in the tests. -/
def c10Info : LDAPInfo :=
  ⟨"123:123", "cn=admin,dc=toto,dc=com", "toto", "uid={USERNAME}", "uid",
   ["comment"], "ou=zoupla,dc=toto,dc=com", "TLS", "lskywalker", "secret"⟩

/-- The valid metadata map used in the tests, with the ignored keys given as a
string list. -/
def c10Meta : List (String × GoValue) :=
  [(LDAPAddressKey, .str "123:123"),
   (LDAPBindDNKey, .str "cn=admin,dc=toto,dc=com"),
   (LDAPBindPasswordKey, .str "toto"),
   (LDAPBindSearchFilterKey, .str "uid={USERNAME}"),
   (LDAPSubjectKey, .str "uid"),
   (LDAPIgnoredKeys, .strList ["comment"]),
   (LDAPConnSecurityProtocolKey, .str "TLS"),
   (LDAPUsernameKey, .str "lskywalker"),
   (LDAPPasswordKey, .str "secret"),
   (LDAPBaseDNKey, .str "ou=zoupla,dc=toto,dc=com")]

/-- C10 counterexample: an LDAPInfo successfully constructed by NewLDAPInfo
whose ToMap output is rejected by NewLDAPInfo — ToMap stores the ignored keys
as the coerced set, while construction requires a string list, so the claimed
round trip fails at the ignoredKeys field. -/
theorem C10_round_trip_counterexample :
    NewLDAPInfo (some c10Meta) = .ok c10Info ∧
    NewLDAPInfo (some (ToMap c10Info)) =
      .error ("metadata must be a list of strings for key \x27" ++
        LDAPIgnoredKeys ++ "\x27") :=
  ⟨rfl, rfl⟩

/-- C10 (amended): for every LDAPInfo `i`, `ToMap i` holds exactly the ten
LDAP metadata keys holding the field values of `i`, the ignored keys as the coerced set
rather than a string list; `NewLDAPInfo (ToMap i)` therefore fails with the
validation error naming the ignoredKeys field; and once the ignored-keys
entry is replaced by its string list, NewLDAPInfo succeeds and returns an
LDAPInfo equal to `i`. -/
theorem C10_round_trip_amended (i : LDAPInfo) :
    ToMap i =
      [(LDAPAddressKey, .str i.address),
       (LDAPBindDNKey, .str i.bindDN),
       (LDAPBindPasswordKey, .str i.bindPassword),
       (LDAPBindSearchFilterKey, .str i.bindSearchFilter),
       (LDAPSubjectKey, .str i.subjectKey),
       (LDAPIgnoredKeys, .strSet i.ignoreKeys),
       (LDAPUsernameKey, .str i.username),
       (LDAPPasswordKey, .str i.password),
       (LDAPBaseDNKey, .str i.baseDN),
       (LDAPConnSecurityProtocolKey, .str i.connSecurityProtocol)] ∧
    NewLDAPInfo (some (ToMap i)) =
      .error ("metadata must be a list of strings for key \x27" ++
        LDAPIgnoredKeys ++ "\x27") ∧
    NewLDAPInfo (some (setIgnoredList (ToMap i) i.ignoreKeys)) = .ok i :=
  ⟨rfl, rfl, rfl⟩

end Midgard
